import Mathlib

/-!
Verification of the Community Ban List core services (ban importer,
reconciler, profile refresher, reputation scorer, export propagator and the
GraphQL `steamUser` query) against their natural-language specification.

The JavaScript sources (`ban-importer/src/core.js` and
`web-server/src/graphql-api/query/resolver.js`) are shallowly embedded:
database tables become lists of records, sequelize queries become pure list
transformations, and the asynchronous control flow of each job becomes an
explicit sequential function over that state.
-/

/-! ## Data model

`SteamUsers` table: identity, profile fields, the four derived-data
timestamps (none = stale), reputation fields and `lastViewed`. -/

structure SteamUser where
  id : Nat
  name : Option String := none
  profileURL : Option String := none
  avatar : Option String := none
  avatarMedium : Option String := none
  avatarFull : Option String := none
  lastRefreshedInfo : Option Nat := none
  lastRefreshedExport : Option Nat := none
  lastRefreshedReputationPoints : Option Nat := none
  lastRefreshedReputationRank : Option Nat := none
  reputationPoints : Nat := 0
  reputationPointsMonthBefore : Nat := 0
  reputationPointsMonthChange : Int := 0
  reputationRank : Option Nat := none
  lastViewed : Option Nat := none
deriving DecidableEq

/-- `Bans` table row: source-assigned id, owning user and ban list,
`expires` (none = permanent) and the free-text reason fields. -/
structure Ban where
  id : Nat
  created : Nat
  expires : Option Nat
  expired : Bool
  reason : String
  rawReason : String
  rawNote : String
  steamUser : Nat
  banList : Nat
deriving DecidableEq

/-- A raw ban record as yielded by the ingestion source; `created` may be
absent (the importer defaults it to `Date.now()`). `banList` is the id of the
owning list. -/
structure RawBan where
  id : Nat
  created : Option Nat
  expires : Option Nat
  expired : Bool
  reason : String
  rawReason : String
  rawNote : String
  steamUser : Nat
  banList : Nat
deriving DecidableEq

/-- The backing store: the `SteamUsers` and `Bans` tables. -/
structure DB where
  users : List SteamUser
  bans : List Ban
deriving DecidableEq

/-! ## Ban importer (`BanImporter` in `ban-importer/src/core.js`)

`saveBan` (the worker task): find-or-create the Ban by id; when the ban is
new or its stored `expired` flag differs from the raw record, the owning
user's `lastRefreshedExport`, `lastRefreshedReputationPoints` and
`lastRefreshedReputationRank` are set to null (the `SteamUser.update` call at
lines 563-574 names exactly those three columns); found bans then get their
`expires`/`expired`/reason fields rewritten from the raw record. -/

/-- The Importer's invalidation update inside `saveBan`: it nulls
`lastRefreshedExport`, `lastRefreshedReputationPoints` and
`lastRefreshedReputationRank` (and no other column). -/
def invalidateDerived (u : SteamUser) : SteamUser :=
  { u with lastRefreshedExport := none, lastRefreshedReputationPoints := none,
           lastRefreshedReputationRank := none }

/-- The Reconciler's invalidation update inside `importBans` (lines 652-668):
it nulls all four derived-data timestamps, `lastRefreshedInfo` included. -/
def invalidateAll (u : SteamUser) : SteamUser :=
  { u with lastRefreshedInfo := none, lastRefreshedExport := none,
           lastRefreshedReputationPoints := none, lastRefreshedReputationRank := none }

/-- `SteamUser.update(fields, { where: { id: uid } })`: rewrite the rows whose
id matches. -/
def updateOwner (users : List SteamUser) (uid : Nat) (f : SteamUser → SteamUser) :
    List SteamUser :=
  users.map fun u => if u.id = uid then f u else u

/-- The `defaults` object passed to `Ban.findOrCreate`:
`created: importedBan.created || Date.now()` and the raw record's fields. -/
def banDefaults (raw : RawBan) (now : Nat) : Ban :=
  { id := raw.id, created := raw.created.getD now, expires := raw.expires,
    expired := raw.expired, reason := raw.reason, rawReason := raw.rawReason,
    rawNote := raw.rawNote, steamUser := raw.steamUser, banList := raw.banList }

/-- `BanImporter.saveBan(importedBan)`: find-or-create the ban by id; on
create, or when the stored `expired` differs from the raw record's, run the
owner invalidation update; when the ban already existed, rewrite its
`expires`, `expired`, `reason`, `rawReason` and `rawNote` from the raw record
and save. -/
def saveBan (db : DB) (raw : RawBan) (now : Nat) : DB :=
  match db.bans.find? (fun b => b.id == raw.id) with
  | none =>
      { users := updateOwner db.users raw.steamUser invalidateDerived,
        bans := db.bans ++ [banDefaults raw now] }
  | some ban =>
      { users :=
          if ban.expired ≠ raw.expired then
            updateOwner db.users raw.steamUser invalidateDerived
          else db.users,
        bans := db.bans.map fun b =>
          if b.id == raw.id then
            { b with expires := raw.expires, expired := raw.expired,
                     reason := raw.reason, rawReason := raw.rawReason,
                     rawNote := raw.rawNote }
          else b }

/-! Concrete instances for the C1 counterexample: a stored ban whose
`expired` flag differs from the incoming raw record's, owned by a user whose
`lastRefreshedInfo` is currently set. -/

def userC1 : SteamUser :=
  { id := 7, lastRefreshedInfo := some 5, lastRefreshedExport := some 5,
    lastRefreshedReputationPoints := some 5, lastRefreshedReputationRank := some 5 }

def banC1 : Ban :=
  { id := 1, created := 2, expires := some 3, expired := true, reason := "r",
    rawReason := "rr", rawNote := "n", steamUser := 7, banList := 3 }

def rawC1 : RawBan :=
  { id := 1, created := some 2, expires := none, expired := false, reason := "r",
    rawReason := "rr", rawNote := "n", steamUser := 7, banList := 3 }

def dbC1 : DB := { users := [userC1], bans := [banC1] }

/-- C1 counterexample: processing a raw ban whose `expired` flag flipped, the
owner's `lastRefreshedInfo` is NOT set to null — it keeps its old value
(`some 5`) — although the claim demands that all four derived-timestamp
fields, `lastRefreshedInfo` included, be nulled in that case. -/
theorem saveBan_flip_keeps_lastRefreshedInfo :
    ∃ u ∈ (saveBan dbC1 rawC1 20).users,
      u.id = rawC1.steamUser ∧ u.lastRefreshedInfo = some 5 ∧
      u.lastRefreshedExport = none ∧ u.lastRefreshedReputationPoints = none ∧
      u.lastRefreshedReputationRank = none := by
  refine ⟨_, List.mem_singleton.mpr rfl, ?_⟩
  decide

/-- C1 (amended): when the ban is newly created, or exists with a differing
`expired` flag, `saveBan` runs the owner invalidation update, which nulls
exactly `lastRefreshedExport`, `lastRefreshedReputationPoints` and
`lastRefreshedReputationRank` while leaving `lastRefreshedInfo` (and every
other user column) unchanged; when the ban exists and `expired` agrees (only
reason/note fields may differ), no user row is touched at all. -/
theorem saveBan_invalidation_cases (db : DB) (raw : RawBan) (now : Nat) :
    (db.bans.find? (fun b => b.id == raw.id) = none →
      (saveBan db raw now).users = updateOwner db.users raw.steamUser invalidateDerived)
    ∧ (∀ ban, db.bans.find? (fun b => b.id == raw.id) = some ban →
        (ban.expired ≠ raw.expired →
          (saveBan db raw now).users = updateOwner db.users raw.steamUser invalidateDerived)
        ∧ (ban.expired = raw.expired → (saveBan db raw now).users = db.users))
    ∧ (∀ u : SteamUser,
        (invalidateDerived u).lastRefreshedInfo = u.lastRefreshedInfo
        ∧ (invalidateDerived u).lastRefreshedExport = none
        ∧ (invalidateDerived u).lastRefreshedReputationPoints = none
        ∧ (invalidateDerived u).lastRefreshedReputationRank = none
        ∧ (invalidateDerived u).id = u.id ∧ (invalidateDerived u).name = u.name
        ∧ (invalidateDerived u).lastViewed = u.lastViewed
        ∧ (invalidateDerived u).reputationPoints = u.reputationPoints)
    ∧ (∀ u ∈ db.users, u.id ≠ raw.steamUser →
        u ∈ updateOwner db.users raw.steamUser invalidateDerived) := by
  refine ⟨?_, ?_, ?_, ?_⟩
  · intro h
    simp only [saveBan, h]
  · intro ban h
    constructor
    · intro hne
      simp only [saveBan, h, if_pos hne]
    · intro heq
      have : ¬ ban.expired ≠ raw.expired := by simp [heq]
      simp only [saveBan, h, if_neg this]
  · intro u
    simp [invalidateDerived]
  · intro u hu hne
    unfold updateOwner
    exact List.mem_map.mpr ⟨u, hu, by simp [hne]⟩

/-! ## Per-run importer state and `queueBan`

`BanImporter` keeps, per run, the set of touched source-list ids
(`importedBanListIDs`, a `Set` in the source) and the ordered collection of
ban ids imported this run (`importedBanIDs`, an array). -/

structure RunState where
  importedBanListIDs : List Nat
  importedBanIDs : List Nat
deriving DecidableEq

/-- `Set.add` on the touched-list set: insert if absent. -/
def addListID (s : List Nat) (x : Nat) : List Nat :=
  if x ∈ s then s else s ++ [x]

/-- The loop body of `queueBan` after a successful bulk upsert: record each
raw ban's list id into the touched set and its ban id into the imported-id
collection. -/
def recordImported (st : RunState) (batch : List RawBan) : RunState :=
  batch.foldl
    (fun s r =>
      { importedBanListIDs := addListID s.importedBanListIDs r.banList,
        importedBanIDs := s.importedBanIDs ++ [r.id] })
    st

/-- A `SteamUsers` row as `SteamUser.bulkCreate` inserts it: only the id is
given, every other column takes its default. -/
def newUser (uid : Nat) : SteamUser := { id := uid }

/-- `SteamUser.bulkCreate(ids, { updateOnDuplicate: [id] })`: insert a row
for each id that has none; an existing row only has its id rewritten to
itself, so it is unchanged. -/
def upsertUsers (users : List SteamUser) (ids : List Nat) : List SteamUser :=
  ids.foldl
    (fun us uid => if us.any (fun u => u.id == uid) then us else us ++ [newUser uid])
    users

/-- `BanImporter.queueBan(importedBans)`: an empty batch returns at once;
otherwise the referenced user identities are bulk-upserted (awaited, with
retries) and only on success is each ban recorded into the run state and
pushed onto the save queue. `upsertOk = false` stands for the upsert still
failing after all retries: the whole batch is dropped — no state change,
nothing enqueued. Returns the new store, the new run state and the raw bans
enqueued for `saveBan`. -/
def queueBan (db : DB) (st : RunState) (batch : List RawBan) (upsertOk : Bool) :
    DB × RunState × List RawBan :=
  if batch.isEmpty then (db, st, [])
  else if upsertOk then
    ({ db with users := upsertUsers db.users (batch.map (·.steamUser)) },
     recordImported st batch, batch)
  else (db, st, [])

/-! ## Reconciler (tail of `BanImporter.importBans`)

After the save queue drains, bans whose list is in the touched set and whose
id is not among this run's imported ids are orphans: their owners get all
four derived timestamps nulled (awaited first), then the orphans are bulk
deleted with the identical predicate. -/

/-- The orphan predicate used by both the invalidation query and the delete:
`id NOT IN importedBanIDs AND banList IN importedBanListIDs`. -/
def isOrphan (st : RunState) (b : Ban) : Bool :=
  st.importedBanListIDs.contains b.banList && !(st.importedBanIDs.contains b.id)

/-- The reconciliation step of `importBans`: select the orphans' owners,
null all four of their derived timestamps, then delete the orphan bans. -/
def reconcile (db : DB) (st : RunState) : DB :=
  let owners := (db.bans.filter (isOrphan st)).map (·.steamUser)
  { users := db.users.map fun u => if owners.contains u.id then invalidateAll u else u,
    bans := db.bans.filter fun b => !isOrphan st b }

/-- Membership reading of `List.contains` (which unfolds to `List.elem`). -/
theorem contains_iff_mem {α : Type} [BEq α] [LawfulBEq α] (l : List α) (x : α) :
    l.contains x = true ↔ x ∈ l :=
  List.elem_iff

/-- The orphan predicate holds exactly of bans of a touched list whose id
was not imported this run. -/
theorem isOrphan_iff (st : RunState) (b : Ban) :
    isOrphan st b = true ↔ b.banList ∈ st.importedBanListIDs ∧ b.id ∉ st.importedBanIDs := by
  simp only [isOrphan, Bool.and_eq_true, Bool.not_eq_true', contains_iff_mem]
  constructor
  · rintro ⟨h1, h2⟩
    refine ⟨h1, fun hc => ?_⟩
    have ht := (contains_iff_mem st.importedBanIDs b.id).mpr hc
    rw [h2] at ht
    exact Bool.false_ne_true ht
  · rintro ⟨h1, h2⟩
    refine ⟨h1, ?_⟩
    cases hc : st.importedBanIDs.contains b.id
    · rfl
    · exact absurd ((contains_iff_mem _ _).mp hc) h2

/-- C2: after a run drains, the reconciler keeps exactly the bans that are
not orphans — a ban survives iff it was stored and it is not the case that
its list was touched while its id went unimported (bans of untouched lists
and bans with imported ids are untouched); every user owning an orphan
(computed against the pre-deletion table, since the invalidation update is
issued and awaited before the bulk delete) ends with all four derived
timestamps null; users owning no orphan are unchanged. -/
theorem reconcile_deletes_exactly_orphans (db : DB) (st : RunState) :
    (∀ b : Ban, b ∈ (reconcile db st).bans ↔ b ∈ db.bans ∧
      ¬(b.banList ∈ st.importedBanListIDs ∧ b.id ∉ st.importedBanIDs))
    ∧ (∀ u ∈ (reconcile db st).users,
        (∃ b ∈ db.bans, b.banList ∈ st.importedBanListIDs ∧ b.id ∉ st.importedBanIDs ∧
          b.steamUser = u.id) →
        u.lastRefreshedInfo = none ∧ u.lastRefreshedExport = none ∧
        u.lastRefreshedReputationPoints = none ∧ u.lastRefreshedReputationRank = none)
    ∧ (∀ u ∈ db.users,
        ¬(∃ b ∈ db.bans, b.banList ∈ st.importedBanListIDs ∧ b.id ∉ st.importedBanIDs ∧
          b.steamUser = u.id) →
        u ∈ (reconcile db st).users) := by
  refine ⟨?_, ?_, ?_⟩
  · intro b
    simp only [reconcile, List.mem_filter, Bool.not_eq_true', ← isOrphan_iff]
    constructor
    · rintro ⟨hb, h⟩
      exact ⟨hb, fun hc => by simp [hc] at h⟩
    · rintro ⟨hb, h⟩
      refine ⟨hb, ?_⟩
      cases hc : isOrphan st b
      · rfl
      · exact absurd hc h
  · intro u hu ⟨b, hb, hlist, hid, howner⟩
    simp only [reconcile, List.mem_map] at hu
    obtain ⟨v, hv, rfl⟩ := hu
    have hmem : (if ((db.bans.filter (isOrphan st)).map (·.steamUser)).contains v.id
        then invalidateAll v else v).id = v.id := by
      split <;> simp [invalidateAll]
    rw [if_pos ?side]
    · simp [invalidateAll]
    case side =>
      rw [contains_iff_mem]
      simp only [List.mem_map, List.mem_filter]
      refine ⟨b, ⟨hb, (isOrphan_iff st b).mpr ⟨hlist, hid⟩⟩, ?_⟩
      rw [howner, hmem]
  · intro u hu hnone
    simp only [reconcile, List.mem_map]
    refine ⟨u, hu, ?_⟩
    rw [if_neg]
    intro hc
    rw [contains_iff_mem] at hc
    simp only [List.mem_map, List.mem_filter] at hc
    obtain ⟨b, ⟨hb, horph⟩, hbu⟩ := hc
    obtain ⟨h1, h2⟩ := (isOrphan_iff st b).mp horph
    exact hnone ⟨b, hb, h1, h2, hbu⟩

/-! ## Upsert-before-enqueue (C8) -/

/-- Rows already in the table survive the bulk upsert. -/
theorem upsertUsers_mono (ids : List Nat) (users : List SteamUser) (u : SteamUser)
    (hu : u ∈ users) : u ∈ upsertUsers users ids := by
  induction ids generalizing users with
  | nil => exact hu
  | cons uid rest ih =>
      unfold upsertUsers
      simp only [List.foldl_cons]
      by_cases h : users.any (fun v => v.id == uid)
      · rw [if_pos h]
        exact ih users hu
      · rw [if_neg h]
        exact ih _ (List.mem_append_left _ hu)

/-- After the bulk upsert, every upserted identity has a row. -/
theorem upsertUsers_covers (ids : List Nat) (users : List SteamUser) (uid : Nat)
    (hid : uid ∈ ids) : ∃ u ∈ upsertUsers users ids, u.id = uid := by
  induction ids generalizing users with
  | nil => cases hid
  | cons x rest ih =>
      unfold upsertUsers
      simp only [List.foldl_cons]
      rcases List.mem_cons.mp hid with rfl | hmem
      · by_cases h : users.any (fun v => v.id == uid)
        · rw [if_pos h]
          obtain ⟨u, hu, hueq⟩ := List.any_eq_true.mp h
          exact ⟨u, upsertUsers_mono rest users u hu, by simpa using hueq⟩
        · rw [if_neg h]
          exact ⟨newUser uid,
            upsertUsers_mono rest _ _ (List.mem_append_right _ (List.mem_singleton.mpr rfl)),
            rfl⟩
      · by_cases h : users.any (fun v => v.id == x)
        · rw [if_pos h]; exact ih users hmem
        · rw [if_neg h]; exact ih _ hmem

/-- C8: for a non-empty batch whose user upsert succeeds, `queueBan` enqueues
exactly the batch, and every enqueued raw ban's owning user identity already
has a row in the store the save workers will run against — the upsert is
sequenced (awaited) before any enqueue.  When the upsert fails after all
retries, or the batch is empty, nothing changes and nothing is enqueued: the
touched set, the imported-id collection and the store are untouched.
`saveBan` itself never adds or removes user rows and only ever commits a ban
row owned by the raw record it was enqueued with (or rewrites a row already
present), so a Ban row is never committed before its owning User row exists. -/
theorem queueBan_upsert_before_enqueue (db : DB) (st : RunState) (batch : List RawBan) :
    (queueBan db st batch false = (db, st, []))
    ∧ (batch = [] → ∀ ok, queueBan db st batch ok = (db, st, []))
    ∧ (batch ≠ [] →
        (queueBan db st batch true).2.2 = batch
        ∧ (∀ raw ∈ batch, ∃ u ∈ (queueBan db st batch true).1.users, u.id = raw.steamUser)
        ∧ (queueBan db st batch true).2.1 = recordImported st batch)
    ∧ (∀ (d : DB) (raw : RawBan) (now : Nat),
        (saveBan d raw now).users.map SteamUser.id = d.users.map SteamUser.id)
    ∧ (∀ (d : DB) (raw : RawBan) (now : Nat), ∀ b ∈ (saveBan d raw now).bans,
        b ∈ d.bans ∨ b.steamUser = raw.steamUser ∨ ∃ b0 ∈ d.bans, b.steamUser = b0.steamUser) := by
  refine ⟨?_, ?_, ?_, ?_, ?_⟩
  · unfold queueBan
    by_cases h : batch.isEmpty
    · rw [if_pos h]
    · rw [if_neg h, if_neg (by simp)]
  · rintro rfl ok
    simp [queueBan]
  · intro hne
    have hempty : batch.isEmpty = false := by
      cases batch with
      | nil => exact absurd rfl hne
      | cons a l => rfl
    refine ⟨?_, ?_, ?_⟩
    · simp [queueBan, hempty]
    · intro raw hraw
      simp only [queueBan, hempty, Bool.false_eq_true, if_false, if_true]
      exact upsertUsers_covers _ db.users raw.steamUser (List.mem_map.mpr ⟨raw, hraw, rfl⟩)
    · simp [queueBan, hempty]
  · intro d raw now
    cases hf : d.bans.find? (fun b => b.id == raw.id) with
    | none =>
        simp only [saveBan, hf, updateOwner, List.map_map]
        refine List.map_congr_left fun u _ => ?_
        by_cases h : u.id = raw.steamUser <;> simp [h, invalidateDerived]
    | some ban =>
        by_cases h : ban.expired ≠ raw.expired
        · simp only [saveBan, hf, if_pos h, updateOwner, List.map_map]
          refine List.map_congr_left fun u _ => ?_
          by_cases h2 : u.id = raw.steamUser <;> simp [h2, invalidateDerived]
        · simp only [saveBan, hf, if_neg h]
  · intro d raw now b hb
    cases hf : d.bans.find? (fun x => x.id == raw.id) with
    | none =>
        simp only [saveBan, hf, List.mem_append, List.mem_singleton] at hb
        rcases hb with hb | rfl
        · exact Or.inl hb
        · exact Or.inr (Or.inl rfl)
    | some ban =>
        simp only [saveBan, hf, List.mem_map] at hb
        obtain ⟨b0, hb0, rfl⟩ := hb
        by_cases h : b0.id == raw.id
        · exact Or.inr (Or.inr ⟨b0, hb0, by simp [h]⟩)
        · simp only [h, if_false, Bool.false_eq_true]
          exact Or.inl (by simpa [h] using hb0)

/-! ## A whole import run (`BanImporter.importBans`)

The ingestion source yields batches of raw bans per source list; each batch
goes through `queueBan` (here with the bulk upsert succeeding), the save
queue drains through `saveBan`, and the reconciler runs last.  The program
interleaves worker execution with ingestion, but every save task runs to
completion before the drain signal, so the drained store is the sequential
composition of the individual `saveBan` steps. -/

/-- All raw bans of a run's ingestion stream, in order. -/
def streamRaws (stream : List (List RawBan)) : List RawBan := stream.flatten

/-- One ingestion step: feed a batch through `queueBan` and append whatever
it enqueued to the pending save queue. -/
def queueStep (acc : DB × RunState × List RawBan) (batch : List RawBan) :
    DB × RunState × List RawBan :=
  ((queueBan acc.1 acc.2.1 batch true).1,
    (queueBan acc.1 acc.2.1 batch true).2.1,
    acc.2.2 ++ (queueBan acc.1 acc.2.1 batch true).2.2)

/-- Feed the whole stream, starting from the constructor's empty run state. -/
def queueAll (db : DB) (stream : List (List RawBan)) : DB × RunState × List RawBan :=
  stream.foldl queueStep (db, { importedBanListIDs := [], importedBanIDs := [] }, [])

/-- Drain the save queue: run `saveBan` on every queued raw ban. -/
def drainSave (db : DB) (queued : List RawBan) (now : Nat) : DB :=
  queued.foldl (fun d raw => saveBan d raw now) db

/-- `BanImporter.importBans` end to end: ingest every batch, wait for the
save queue to drain, then reconcile orphans. -/
def runImport (db : DB) (stream : List (List RawBan)) (now : Nat) : DB :=
  reconcile (drainSave (queueAll db stream).1 (queueAll db stream).2.2 now)
    (queueAll db stream).2.1

theorem mem_addListID (s : List Nat) (x y : Nat) :
    x ∈ addListID s y ↔ x ∈ s ∨ x = y := by
  unfold addListID
  by_cases h : y ∈ s
  · rw [if_pos h]
    constructor
    · exact Or.inl
    · rintro (hx | rfl)
      · exact hx
      · exact h
  · rw [if_neg h]
    simp [List.mem_append]

theorem recordImported_ids (st : RunState) (batch : List RawBan) :
    (recordImported st batch).importedBanIDs = st.importedBanIDs ++ batch.map (·.id) := by
  induction batch generalizing st with
  | nil => simp [recordImported]
  | cons r rest ih =>
      unfold recordImported
      simp only [List.foldl_cons]
      rw [show ∀ s : RunState, List.foldl _ s rest = recordImported s rest from fun _ => rfl, ih]
      simp

theorem recordImported_lists (st : RunState) (batch : List RawBan) (x : Nat) :
    x ∈ (recordImported st batch).importedBanListIDs ↔
      x ∈ st.importedBanListIDs ∨ x ∈ batch.map (·.banList) := by
  induction batch generalizing st with
  | nil => simp [recordImported]
  | cons r rest ih =>
      unfold recordImported
      simp only [List.foldl_cons]
      rw [show ∀ s : RunState, List.foldl _ s rest = recordImported s rest from fun _ => rfl, ih]
      simp only [mem_addListID, List.map_cons, List.mem_cons]
      tauto

/-- When every upserted identity already has a row, the bulk upsert changes
nothing. -/
theorem upsertUsers_id (ids : List Nat) (users : List SteamUser)
    (h : ∀ uid ∈ ids, ∃ u ∈ users, u.id = uid) : upsertUsers users ids = users := by
  induction ids with
  | nil => rfl
  | cons x rest ih =>
      unfold upsertUsers
      simp only [List.foldl_cons]
      have hx : users.any (fun u => u.id == x) = true := by
        obtain ⟨u, hu, he⟩ := h x (List.mem_cons_self _ _)
        exact List.any_eq_true.mpr ⟨u, hu, by simp [he]⟩
      rw [if_pos hx]
      exact ih fun uid hm => h uid (List.mem_cons_of_mem _ hm)

/-- When every referenced user identity already has a row, ingesting the
stream leaves the store unchanged, records exactly the stream's list ids and
ban ids, and enqueues exactly the stream's raw bans in order. -/
theorem queueAll_fold_spec (stream : List (List RawBan)) (db : DB) (st : RunState)
    (q0 : List RawBan)
    (h : ∀ raw ∈ streamRaws stream, ∃ u ∈ db.users, u.id = raw.steamUser) :
    stream.foldl queueStep (db, st, q0) =
      (db, stream.foldl recordImported st, q0 ++ streamRaws stream) := by
  induction stream generalizing st q0 with
  | nil => simp [streamRaws]
  | cons batch rest ih =>
      have hrest : ∀ raw ∈ streamRaws rest, ∃ u ∈ db.users, u.id = raw.steamUser := by
        intro raw hraw
        refine h raw ?_
        simp only [streamRaws, List.flatten_cons, List.mem_append]
        exact Or.inr hraw
      simp only [List.foldl_cons]
      cases batch with
      | nil =>
          have hq : queueStep (db, st, q0) [] = (db, st, q0) := by
            simp [queueStep, queueBan]
          rw [hq, ih st q0 hrest]
          simp [streamRaws, recordImported]
      | cons r rs =>
          have hup : upsertUsers db.users ((r :: rs).map (·.steamUser)) = db.users := by
            refine upsertUsers_id _ _ fun uid hm => ?_
            obtain ⟨raw, hraw, rfl⟩ := List.mem_map.mp hm
            exact h raw (by
              simp only [streamRaws, List.flatten_cons]
              exact List.mem_append_left _ hraw)
          have hq : queueStep (db, st, q0) (r :: rs) =
              (db, recordImported st (r :: rs), q0 ++ (r :: rs)) := by
            simp only [queueStep, queueBan, List.isEmpty_cons, Bool.false_eq_true, if_false,
              if_true, hup]
          rw [hq, ih _ _ hrest]
          simp [streamRaws]

/-- The imported-id collection a run accumulates is exactly the stream's ban
ids, in order. -/
theorem queueAll_ids (db : DB) (stream : List (List RawBan))
    (h : ∀ raw ∈ streamRaws stream, ∃ u ∈ db.users, u.id = raw.steamUser) :
    (queueAll db stream).2.1.importedBanIDs = (streamRaws stream).map (·.id) := by
  unfold queueAll
  rw [queueAll_fold_spec stream db _ [] h]
  have : ∀ (s : List (List RawBan)) (st : RunState),
      (s.foldl recordImported st).importedBanIDs =
        st.importedBanIDs ++ (streamRaws s).map (·.id) := by
    intro s
    induction s with
    | nil => intro st; simp [streamRaws]
    | cons b r ih =>
        intro st
        simp only [List.foldl_cons, ih, recordImported_ids, streamRaws, List.flatten_cons,
          List.map_append, List.append_assoc]
  rw [this stream { importedBanListIDs := [], importedBanIDs := [] }]
  simp

/-- The touched-list set a run accumulates holds exactly the stream's list
ids. -/
theorem queueAll_lists (db : DB) (stream : List (List RawBan)) (x : Nat)
    (h : ∀ raw ∈ streamRaws stream, ∃ u ∈ db.users, u.id = raw.steamUser) :
    x ∈ (queueAll db stream).2.1.importedBanListIDs ↔
      x ∈ (streamRaws stream).map (·.banList) := by
  unfold queueAll
  rw [queueAll_fold_spec stream db _ [] h]
  have : ∀ (s : List (List RawBan)) (st : RunState),
      x ∈ (s.foldl recordImported st).importedBanListIDs ↔
        x ∈ st.importedBanListIDs ∨ x ∈ (streamRaws s).map (·.banList) := by
    intro s
    induction s with
    | nil => intro st; simp [streamRaws]
    | cons b r ih =>
        intro st
        simp only [List.foldl_cons, ih, recordImported_lists, streamRaws, List.flatten_cons,
          List.map_append, List.mem_append]
        tauto
  rw [this stream { importedBanListIDs := [], importedBanIDs := [] }]
  simp

/-- `saveBan` on a raw ban whose stored row already matches it field for
field changes nothing: the ban is found, the `expired` flags agree so no
invalidation fires, and the rewritten fields take their current values. -/
theorem saveBan_noop (db : DB) (raw : RawBan) (now : Nat)
    (hex : ∃ b ∈ db.bans, b.id = raw.id)
    (hall : ∀ b ∈ db.bans, b.id = raw.id →
      b.expires = raw.expires ∧ b.expired = raw.expired ∧ b.reason = raw.reason ∧
      b.rawReason = raw.rawReason ∧ b.rawNote = raw.rawNote) :
    saveBan db raw now = db := by
  have hsome : (db.bans.find? (fun b => b.id == raw.id)).isSome := by
    rw [List.find?_isSome]
    obtain ⟨b, hb, he⟩ := hex
    exact ⟨b, hb, by simp [he]⟩
  obtain ⟨ban, hf⟩ := Option.isSome_iff_exists.mp hsome
  have hmem : ban ∈ db.bans := List.mem_of_find?_eq_some hf
  have hid : ban.id = raw.id := by simpa using List.find?_some hf
  obtain ⟨_, he2, _, _, _⟩ := hall ban hmem hid
  have hne : ¬ ban.expired ≠ raw.expired := by simp [he2]
  have hmap : (db.bans.map fun b =>
      if b.id == raw.id then
        { b with expires := raw.expires, expired := raw.expired, reason := raw.reason,
                 rawReason := raw.rawReason, rawNote := raw.rawNote }
      else b) = db.bans := by
    refine (List.map_congr_left fun b hb => ?_).trans (List.map_id _)
    by_cases hbid : (b.id == raw.id) = true
    · obtain ⟨f1, f2, f3, f4, f5⟩ := hall b hb (by simpa using hbid)
      rw [if_pos hbid]
      cases b
      simp_all
    · rw [if_neg hbid]
      rfl
  simp only [saveBan, hf, if_neg hne, hmap]

/-- Draining a queue of raw bans that all already match their stored rows
leaves the store unchanged. -/
theorem drainSave_noop (db : DB) (queued : List RawBan) (now : Nat)
    (h : ∀ raw ∈ queued,
      (∃ b ∈ db.bans, b.id = raw.id) ∧
      ∀ b ∈ db.bans, b.id = raw.id →
        b.expires = raw.expires ∧ b.expired = raw.expired ∧ b.reason = raw.reason ∧
        b.rawReason = raw.rawReason ∧ b.rawNote = raw.rawNote) :
    drainSave db queued now = db := by
  induction queued with
  | nil => rfl
  | cons r rest ih =>
      unfold drainSave
      simp only [List.foldl_cons]
      obtain ⟨hex, hall⟩ := h r (List.mem_cons_self _ _)
      rw [saveBan_noop db r now hex hall]
      exact ih fun raw hm => h raw (List.mem_cons_of_mem _ hm)

/-- With no orphan in the store, the reconciler is a no-op. -/
theorem reconcile_noop (db : DB) (st : RunState)
    (h : ∀ b ∈ db.bans, isOrphan st b = false) : reconcile db st = db := by
  have hfil : db.bans.filter (isOrphan st) = [] :=
    List.filter_eq_nil_iff.mpr fun b hb => by simp [h b hb]
  have hkeep : (db.bans.filter fun b => !isOrphan st b) = db.bans :=
    List.filter_eq_self.mpr fun b hb => by simp [h b hb]
  have husers : (db.users.map fun u =>
      if ((db.bans.filter (isOrphan st)).map (·.steamUser)).contains u.id
      then invalidateAll u else u) = db.users := by
    refine (List.map_congr_left fun u _ => ?_).trans (List.map_id _)
    rw [hfil]
    simp
  simp only [reconcile, husers, hkeep]

/-- C9: re-running the importer on a raw-ban stream identical to the one the
store already reflects (every raw ban has a stored row agreeing on every
rewritten field and the `expired` flag, every owner row exists, and every
stored ban of a touched list carries one of the stream's ids) is a no-op:
user upserts find every row, `findOrCreate` finds every ban, no `expired`
flag differs so no invalidation fires, the rewritten fields equal their
current values, and the reconciler finds no orphan. -/
theorem runImport_idempotent (db : DB) (stream : List (List RawBan)) (now : Nat)
    (husers : ∀ raw ∈ streamRaws stream, ∃ u ∈ db.users, u.id = raw.steamUser)
    (hfound : ∀ raw ∈ streamRaws stream, ∃ b ∈ db.bans, b.id = raw.id)
    (hmatch : ∀ raw ∈ streamRaws stream, ∀ b ∈ db.bans, b.id = raw.id →
      b.expires = raw.expires ∧ b.expired = raw.expired ∧ b.reason = raw.reason ∧
      b.rawReason = raw.rawReason ∧ b.rawNote = raw.rawNote)
    (hcomplete : ∀ b ∈ db.bans, b.banList ∈ (streamRaws stream).map (·.banList) →
      b.id ∈ (streamRaws stream).map (·.id)) :
    runImport db stream now = db := by
  unfold runImport queueAll
  rw [queueAll_fold_spec stream db _ [] husers]
  simp only [List.nil_append]
  rw [drainSave_noop db (streamRaws stream) now
    (fun raw hraw => ⟨hfound raw hraw, hmatch raw hraw⟩)]
  refine reconcile_noop db _ fun b hb => ?_
  cases horph : isOrphan _ b
  · rfl
  · exfalso
    obtain ⟨hl, hid⟩ := (isOrphan_iff _ b).mp horph
    have hl' : b.banList ∈ (streamRaws stream).map (·.banList) := by
      have := (queueAll_lists db stream b.banList husers).mp
      unfold queueAll at this
      rw [queueAll_fold_spec stream db _ [] husers] at this
      exact this hl
    have hid' : b.id ∈ (streamRaws stream).map (·.id) := hcomplete b hb hl'
    have := queueAll_ids db stream husers
    unfold queueAll at this
    rw [queueAll_fold_spec stream db _ [] husers] at this
    rw [this] at hid
    exact hid hid'

/-! Concrete witness data for the idempotence theorem: a store holding one
user and one ban, re-fed the identical one-batch stream. -/

def userW : SteamUser := { id := 7 }

def banW : Ban :=
  { id := 1, created := 2, expires := some 3, expired := true, reason := "r",
    rawReason := "rr", rawNote := "n", steamUser := 7, banList := 3 }

def rawW : RawBan :=
  { id := 1, created := some 2, expires := some 3, expired := true, reason := "r",
    rawReason := "rr", rawNote := "n", steamUser := 7, banList := 3 }

def dbW : DB := { users := [userW], bans := [banW] }

/-- Witness for the idempotence theorem at a concrete store and stream. -/
theorem runImport_idempotent_witness : runImport dbW [[rawW]] 20 = dbW :=
  runImport_idempotent dbW [[rawW]] 20 (by decide) (by decide) (by decide) (by decide)

/-! ## Reputation scorer (`Core.updateReputationPoints`, `Core.updateReputationRank`)

The points UPDATE joins a per-(banList, steamUser) aggregate: a list
contributes `3` points when the user has at least one ban on it with
`expires IS NULL OR expires >= NOW()` (non-expired), plus `1` point per ban
whose `expires` has passed; the per-list points are summed per user.  The
month-ago aggregate evaluates the same rule at `NOW() - INTERVAL 1 MONTH`,
restricted to bans `created` before that cutoff.  Only rows with
`lastRefreshedReputationPoints IS NULL` are written. -/

/-- `B.expires IS NULL OR B.expires >= t`: the ban counts as non-expired at
time `t`. -/
def nonExpiredAt (t : Nat) (b : Ban) : Bool :=
  match b.expires with
  | none => true
  | some e => t ≤ e

/-- The user's bans on one list (the inner `GROUP BY B.banList, B.steamUser`
group). -/
def userListBans (bans : List Ban) (uid lid : Nat) : List Ban :=
  bans.filter fun b => b.steamUser == uid && b.banList == lid

/-- Points one list contributes for one user at time `t`:
`IF(SUM(nonexpired) > 0, 3, 0) + SUM(expired)`. -/
def listPointsAt (bans : List Ban) (t uid lid : Nat) : Nat :=
  (if (userListBans bans uid lid).any (nonExpiredAt t) then 3 else 0) +
    (userListBans bans uid lid).countP fun b => !nonExpiredAt t b

/-- The distinct lists the user has any ban on. -/
def userBanLists (bans : List Ban) (uid : Nat) : List Nat :=
  ((bans.filter fun b => b.steamUser == uid).map (·.banList)).dedup

/-- Total current points: the per-list points summed across the user's
lists (the outer `GROUP BY PPBL.steamUser` with `SUM(PPBL.points)`). -/
def userPointsAt (bans : List Ban) (t uid : Nat) : Nat :=
  ((userBanLists bans uid).map (listPointsAt bans t uid)).sum

/-- Month-ago points: the same rule evaluated at the cutoff, restricted to
bans created before the cutoff (`WHERE B.created < NOW() - INTERVAL 1 MONTH`). -/
def monthUserPoints (bans : List Ban) (cutoff uid : Nat) : Nat :=
  userPointsAt (bans.filter fun b => b.created < cutoff) cutoff uid

/-- The SET clause of the points UPDATE, applied to one user row against the
snapshot of the `Bans` table: current points, month-ago points, their
difference, and the stamp. -/
def pointsRow (bans : List Ban) (t cutoff : Nat) (u : SteamUser) : SteamUser :=
  { u with reputationPoints := userPointsAt bans t u.id,
           reputationPointsMonthBefore := monthUserPoints bans cutoff u.id,
           reputationPointsMonthChange :=
             (userPointsAt bans t u.id : Int) - (monthUserPoints bans cutoff u.id : Int),
           lastRefreshedReputationPoints := some t }

/-- `Core.updateReputationPoints`: rewrite `reputationPoints`,
`reputationPointsMonthBefore`, `reputationPointsMonthChange` and stamp
`lastRefreshedReputationPoints` on exactly the rows whose stamp is null. -/
def updateReputationPoints (db : DB) (t cutoff : Nat) : DB :=
  { db with users := db.users.map fun u =>
      if u.lastRefreshedReputationPoints = none then pointsRow db.bans t cutoff u
      else u }

/-! Concrete data for the C5 point-rule instance: user 7 holds one
non-expired and two expired bans on list 1, and one expired ban on list 2. -/

def banP (i : Nat) (created : Nat) (expires : Option Nat) (lid : Nat) : Ban :=
  { id := i, created := created, expires := expires, expired := false, reason := "",
    rawReason := "", rawNote := "", steamUser := 7, banList := lid }

def bansC5 : List Ban :=
  [banP 1 0 none 1, banP 2 0 (some 10) 1, banP 3 0 (some 20) 1, banP 4 0 (some 30) 2]

/-- C5: the points update writes exactly the users whose
`lastRefreshedReputationPoints` is null — every other row is untouched — and
the written total follows the per-list rule (3 for at least one non-expired
ban on the list, plus 1 per expired ban, summed over the user's lists, with
the month-ago total applying the same rule to bans created before the
cutoff).  In particular one non-expired plus two expired bans on a single
list yield 5 points at time 100 (expiries 10 and 20 have passed), and an
extra expired ban on a second list adds independently for a total of 6. -/
theorem updateReputationPoints_spec (db : DB) (t cutoff : Nat) :
    (∀ u ∈ db.users, u.lastRefreshedReputationPoints ≠ none →
      u ∈ (updateReputationPoints db t cutoff).users)
    ∧ (∀ u ∈ db.users, u.lastRefreshedReputationPoints = none →
        pointsRow db.bans t cutoff u ∈ (updateReputationPoints db t cutoff).users)
    ∧ (∀ u' ∈ (updateReputationPoints db t cutoff).users, ∃ u ∈ db.users,
        (u.lastRefreshedReputationPoints ≠ none ∧ u' = u) ∨
        (u.lastRefreshedReputationPoints = none ∧ u' = pointsRow db.bans t cutoff u))
    ∧ (∀ u : SteamUser, (pointsRow db.bans t cutoff u).reputationPoints =
        userPointsAt db.bans t u.id
      ∧ (pointsRow db.bans t cutoff u).reputationPointsMonthBefore =
        monthUserPoints db.bans cutoff u.id
      ∧ (pointsRow db.bans t cutoff u).lastRefreshedReputationPoints = some t
      ∧ (pointsRow db.bans t cutoff u).id = u.id
      ∧ (pointsRow db.bans t cutoff u).lastRefreshedInfo = u.lastRefreshedInfo)
    ∧ listPointsAt bansC5 100 7 1 = 5
    ∧ userPointsAt bansC5 100 7 = 6 := by
  refine ⟨?_, ?_, ?_, fun u => by simp [pointsRow], by decide, by decide⟩
  · intro u hu hne
    simp only [updateReputationPoints, List.mem_map]
    exact ⟨u, hu, by simp [hne]⟩
  · intro u hu heq
    simp only [updateReputationPoints, List.mem_map]
    exact ⟨u, hu, by simp [heq]⟩
  · intro u' hu'
    simp only [updateReputationPoints, List.mem_map] at hu'
    obtain ⟨u, hu, rfl⟩ := hu'
    refine ⟨u, hu, ?_⟩
    by_cases h : u.lastRefreshedReputationPoints = none
    · exact Or.inr ⟨h, by simp [h]⟩
    · exact Or.inl ⟨h, by simp [h]⟩

/-! ## Reputation rank (`Core.updateReputationRank`)

`RANK() OVER (ORDER BY reputationPoints DESC)` on the whole `SteamUsers`
table (no WHERE clause), snapshotted into a temporary table, then joined back
so every row gets its rank and the single `@Dt` timestamp taken once before
the computation. `RANK()` assigns `1 +` the number of rows strictly ahead in
the ordering; tied rows share a rank. -/

/-- `RANK()` of a row with the given points against the whole population:
one plus the number of users with strictly more points. -/
def rankOf (users : List SteamUser) (points : Nat) : Nat :=
  1 + users.countP fun v => points < v.reputationPoints

/-- The SET clause of the rank UPDATE on one row: its rank against the
snapshot, and the shared `@Dt` stamp. -/
def rankRow (users : List SteamUser) (t : Nat) (u : SteamUser) : SteamUser :=
  { u with reputationRank := some (rankOf users u.reputationPoints),
           lastRefreshedReputationRank := some t }

/-- `Core.updateReputationRank`: every user row, unconditionally, gets its
rank (computed against the pre-update snapshot) and the one shared `@Dt`
stamp. -/
def updateReputationRank (db : DB) (t : Nat) : DB :=
  { db with users := db.users.map (rankRow db.users t) }

/-! Concrete population for the C6 dense/competitive-rank instance: three
users with points 10, 10 and 7. -/

def userR (i pts : Nat) : SteamUser := { id := i, reputationPoints := pts }

def dbC6 : DB := { users := [userR 1 10, userR 2 10, userR 3 7], bans := [] }

/-- C6: the rank pass runs over the entire population unconditionally (every
output row comes from rewriting an input row, and every input row is
rewritten), every user's rank equals one plus the number of users with
strictly more points (so ties share a rank), all rows carry the one shared
timestamp, and no other column changes; users with points `[10, 10, 7]`
receive ranks `[1, 1, 3]`. -/
theorem updateReputationRank_spec (db : DB) (t : Nat) :
    (∀ u ∈ db.users, rankRow db.users t u ∈ (updateReputationRank db t).users)
    ∧ (∀ u' ∈ (updateReputationRank db t).users, ∃ u ∈ db.users, u' = rankRow db.users t u)
    ∧ ((updateReputationRank db t).users.map (·.lastRefreshedReputationRank) =
        db.users.map fun _ => some t)
    ∧ (∀ u : SteamUser,
        (rankRow db.users t u).reputationRank =
          some (1 + (db.users.filter fun v => u.reputationPoints < v.reputationPoints).length)
        ∧ (rankRow db.users t u).reputationPoints = u.reputationPoints
        ∧ (rankRow db.users t u).id = u.id
        ∧ (rankRow db.users t u).lastRefreshedReputationRank = some t)
    ∧ ((updateReputationRank dbC6 5).users.map (·.reputationRank) =
        [some 1, some 1, some 3]) := by
  refine ⟨?_, ?_, ?_, ?_, by decide⟩
  · intro u hu
    exact List.mem_map.mpr ⟨u, hu, rfl⟩
  · intro u' hu'
    obtain ⟨u, hu, rfl⟩ := List.mem_map.mp hu'
    exact ⟨u, hu, rfl⟩
  · simp only [updateReputationRank, List.map_map]
    rfl
  · intro u
    refine ⟨?_, by simp [rankRow], by simp [rankRow], by simp [rankRow]⟩
    simp only [rankRow, rankOf, List.countP_eq_length_filter]

/-! ## The `steamUser` GraphQL query (`web-server`, `resolver.js`)

`SteamUser.findByPk(filter.id)`; when a row is found its `lastViewed` is set
to `Date.now()` and the instance saved (persisting that one row) before the
user is returned; when none is found `null` is returned and nothing is
written. -/

/-- `Query.steamUser`: returns the (possibly updated) row and the store
after the query. -/
def steamUserQuery (db : DB) (qid now : Nat) : Option SteamUser × DB :=
  match db.users.find? (fun u => u.id == qid) with
  | none => (none, db)
  | some u =>
      (some { u with lastViewed := some now },
        { db with users := db.users.map fun v =>
            if v.id == qid then { v with lastViewed := some now } else v })

/-- C10: the `steamUser` query is not a pure read.  When the id matches a
stored user, the returned row is that user with `lastViewed` set to now and
every other field unchanged, and the store keeps every row except that the
matching user's `lastViewed` is now (bans untouched, non-matching users
untouched); when no user matches, the result is null and the store is
exactly what it was. -/
theorem steamUserQuery_spec (db : DB) (qid now : Nat) :
    (db.users.find? (fun u => u.id == qid) = none → steamUserQuery db qid now = (none, db))
    ∧ (∀ u, db.users.find? (fun u => u.id == qid) = some u →
        (steamUserQuery db qid now).1 = some { u with lastViewed := some now }
        ∧ (steamUserQuery db qid now).2.bans = db.bans
        ∧ (∀ v ∈ db.users, v.id ≠ qid → v ∈ (steamUserQuery db qid now).2.users)
        ∧ (∀ v ∈ db.users, v.id = qid →
            { v with lastViewed := some now } ∈ (steamUserQuery db qid now).2.users)
        ∧ (∀ v' ∈ (steamUserQuery db qid now).2.users, ∃ v ∈ db.users,
            (v.id ≠ qid ∧ v' = v) ∨ (v.id = qid ∧ v' = { v with lastViewed := some now })))
    ∧ (∀ u : SteamUser, ∀ m : Nat,
        ({ u with lastViewed := some m } : SteamUser).id = u.id
        ∧ ({ u with lastViewed := some m } : SteamUser).name = u.name
        ∧ ({ u with lastViewed := some m } : SteamUser).reputationPoints = u.reputationPoints
        ∧ ({ u with lastViewed := some m } : SteamUser).reputationRank = u.reputationRank
        ∧ ({ u with lastViewed := some m } : SteamUser).lastRefreshedInfo = u.lastRefreshedInfo
        ∧ ({ u with lastViewed := some m } : SteamUser).lastViewed = some m) := by
  refine ⟨?_, ?_, fun u m => by simp⟩
  · intro h
    simp only [steamUserQuery, h]
  · intro u hf
    refine ⟨?_, ?_, ?_, ?_, ?_⟩
    · simp only [steamUserQuery, hf]
    · simp only [steamUserQuery, hf]
    · intro v hv hne
      simp only [steamUserQuery, hf, List.mem_map]
      exact ⟨v, hv, by simp [hne]⟩
    · intro v hv heq
      simp only [steamUserQuery, hf, List.mem_map]
      exact ⟨v, hv, by simp [heq]⟩
    · intro v' hv'
      simp only [steamUserQuery, hf, List.mem_map] at hv'
      obtain ⟨v, hv, rfl⟩ := hv'
      refine ⟨v, hv, ?_⟩
      by_cases h : v.id = qid
      · exact Or.inr ⟨h, by simp [h]⟩
      · exact Or.inl ⟨h, by simp [h]⟩

/-- Witness for the `steamUser` query theorem: a two-user store queried for
id 7. -/
theorem steamUserQuery_spec_witness :
    (steamUserQuery { users := [userC1, userR 9 4], bans := [banC1] } 7 50).1 =
      some { userC1 with lastViewed := some 50 } :=
  ((steamUserQuery_spec { users := [userC1, userR 9 4], bans := [banC1] } 7 50).2.1
    userC1 (by decide)).1

/-! ## Export propagator (`Core.exportExportBans`)

All `ExportBan`s with status `TO_BE_CREATED` or `TO_BE_DELETED` are fetched;
the changes are tallied per export ban list (a JS object keyed by list id);
each record gets `doDiscordAlert = (its list's tally < DISCORD_ALERT_CAP)`;
per-record processing sends an individual alert only when the record's list
has a Discord webhook and `doDiscordAlert` is set; afterwards one summary
alert per tallied list is sent when the list has a webhook and its tally
reached the cap. -/

structure ExportBanList where
  id : Nat
  name : String
  discordWebhook : Option String
deriving DecidableEq

inductive ExportStatus where
  | TO_BE_CREATED
  | TO_BE_DELETED
deriving DecidableEq

/-- A pending `ExportBan` row joined with its `ExportBanList` and
`SteamUser`, as `Core.exportExportBans` fetches them. -/
structure ExportBan where
  id : Nat
  status : ExportStatus
  banList : ExportBanList
  steamUser : Nat
deriving DecidableEq

def DISCORD_ALERT_CAP : Nat := 50

/-- The tally loop: `listChangeCount[list].count`, a map from list id to the
number of pending changes for that list, built by one pass over the fetched
records. -/
def listChangeCount (exportBans : List ExportBan) : Nat → Nat :=
  exportBans.foldl
    (fun m eb => fun lid => if lid = eb.banList.id then m lid + 1 else m lid)
    (fun _ => 0)

/-- `exportBan.doDiscordAlert = listChangeCount[list].count < DISCORD_ALERT_CAP`. -/
def doDiscordAlert (exportBans : List ExportBan) (eb : ExportBan) : Bool :=
  decide (listChangeCount exportBans eb.banList.id < DISCORD_ALERT_CAP)

/-- The individual creation/removal alerts of the per-record phase: one per
record whose list has a webhook and whose `doDiscordAlert` flag is set
(`createExportBan` / `deleteExportBan` return early otherwise). -/
def individualAlertIDs (exportBans : List ExportBan) : List Nat :=
  (exportBans.filter fun eb =>
    eb.banList.discordWebhook.isSome && doDiscordAlert exportBans eb).map (·.id)

/-- The distinct tallied lists, in first-seen order (`Object.values` of the
tally object). -/
def tallyLists (exportBans : List ExportBan) : List ExportBanList :=
  exportBans.foldl
    (fun acc eb => if acc.any (fun l => l.id == eb.banList.id) then acc else acc ++ [eb.banList])
    []

/-- The summary-alert phase: for each tallied list, skip unless it has a
webhook and its change count reached the cap. -/
def summaryAlertListIDs (exportBans : List ExportBan) : List Nat :=
  ((tallyLists exportBans).filter fun l =>
    l.discordWebhook.isSome && decide (DISCORD_ALERT_CAP ≤ listChangeCount exportBans l.id)).map
    (·.id)

/-- The tally fold computes, for every list id, the number of fetched
records targeting that list. -/
theorem listChangeCount_go (ebs : List ExportBan) (m : Nat → Nat) (lid : Nat) :
    ebs.foldl (fun m eb => fun l => if l = eb.banList.id then m l + 1 else m l) m lid
      = m lid + ebs.countP (fun eb => eb.banList.id == lid) := by
  induction ebs generalizing m with
  | nil => simp
  | cons e t ih =>
      simp only [List.foldl_cons, ih, List.countP_cons]
      by_cases h : lid = e.banList.id
      · simp only [h, if_pos rfl, beq_self_eq_true, if_true]
        omega
      · have h2 : (e.banList.id == lid) = false := by
          simp only [beq_eq_false_iff_ne, ne_eq]
          exact fun hc => h hc.symm
        simp only [if_neg h, h2, Bool.false_eq_true, if_false]
        omega

theorem listChangeCount_eq_countP (ebs : List ExportBan) (lid : Nat) :
    listChangeCount ebs lid = ebs.countP (fun eb => eb.banList.id == lid) := by
  unfold listChangeCount
  rw [listChangeCount_go]
  omega

/-! Concrete scenario for C4: one export ban list (with a webhook) carrying
`n` pending records. -/

def sampleList : ExportBanList := { id := 1, name := "list", discordWebhook := some "hook" }

def sampleExportBans (n : Nat) : List ExportBan :=
  (List.range n).map fun i =>
    { id := i, status := ExportStatus.TO_BE_CREATED, banList := sampleList, steamUser := 100 + i }

/-- C4: a record's `doDiscordAlert` flag holds exactly when the number of
pending records of its target list is below the 50 cap; with 49 pending
records on one webhook-carrying list every record gets an individual alert
and no summary alert is sent for that list, while with 50 pending records no
record gets an individual alert and exactly one summary alert is sent for
that list after the per-record work. -/
theorem exportAlert_cap_spec :
    (∀ (ebs : List ExportBan) (eb : ExportBan),
      doDiscordAlert ebs eb = true ↔
        (ebs.countP fun x => x.banList.id == eb.banList.id) < DISCORD_ALERT_CAP)
    ∧ individualAlertIDs (sampleExportBans 49) = List.range 49
    ∧ summaryAlertListIDs (sampleExportBans 49) = []
    ∧ individualAlertIDs (sampleExportBans 50) = []
    ∧ summaryAlertListIDs (sampleExportBans 50) = [sampleList.id] := by
  refine ⟨?_, by decide, by decide, by decide, by decide⟩
  intro ebs eb
  simp [doDiscordAlert, listChangeCount_eq_countP]

/-! ## Profile refresher batch loop (`Core.updateSteamUserInfo`)

Per batch the source runs `while (!data && numAttempts < 3)`: each iteration
calls the profile API; on success it stores the payload and sets
`numAttempts = 50`; on an error whose message is `timeout` it increments
`numAttempts` and continues; on any other error it logs, rethrows when the
HTTP status is 429, and otherwise falls through to the next iteration
WITHOUT touching `numAttempts`.  After the loop the code iterates
`for (const user of data?.response?.players)` — when `data` is still null
that expression is `undefined` and the `for...of` throws a `TypeError`,
which nothing catches, aborting the whole refresh run. -/

/-- What one API attempt does: resolve with a players payload, reject with
the timeout error, or reject with an HTTP error of the given status. -/
inductive SteamApiOutcome where
  | success (players : List Nat)
  | timeout
  | httpError (status : Option Nat)
deriving DecidableEq

/-- How the `while` loop can end: the guard became false (with the final
`data` and `numAttempts`), a 429 was rethrown out of it, or it is still
iterating after consuming every provided attempt outcome. -/
inductive AttemptLoopEnd where
  | exited (data : Option (List Nat)) (numAttempts : Nat)
  | raised429
  | outOfOutcomes (numAttempts : Nat)
deriving DecidableEq

def UPDATE_STEAM_USER_INFO_BATCH_RETRIES : Nat := 3

/-- The attempt loop, consuming one outcome per iteration. -/
def attemptLoop (outcomes : List SteamApiOutcome) (numAttempts : Nat)
    (data : Option (List Nat)) : AttemptLoopEnd :=
  if data.isSome || UPDATE_STEAM_USER_INFO_BATCH_RETRIES ≤ numAttempts then
    AttemptLoopEnd.exited data numAttempts
  else
    match outcomes with
    | [] => AttemptLoopEnd.outOfOutcomes numAttempts
    | o :: rest =>
      match o with
      | SteamApiOutcome.success ps => attemptLoop rest 50 (some ps)
      | SteamApiOutcome.timeout => attemptLoop rest (numAttempts + 1) data
      | SteamApiOutcome.httpError s =>
          if s = some 429 then AttemptLoopEnd.raised429 else attemptLoop rest numAttempts data

/-- What one batch of the refresher does to the run. -/
inductive BatchOutcome where
  | processed (players : List Nat)
  | typeErrorCrash
  | rateLimitAbort
  | stillLooping
deriving DecidableEq

/-- One batch end to end: run the attempt loop from `numAttempts = 0`,
`data = null`, then iterate `data?.response?.players` — a `TypeError` crash
when `data` is still null. -/
def processBatch (outcomes : List SteamApiOutcome) : BatchOutcome :=
  match attemptLoop outcomes 0 none with
  | AttemptLoopEnd.exited (some ps) _ => BatchOutcome.processed ps
  | AttemptLoopEnd.exited none _ => BatchOutcome.typeErrorCrash
  | AttemptLoopEnd.raised429 => BatchOutcome.rateLimitAbort
  | AttemptLoopEnd.outOfOutcomes _ => BatchOutcome.stillLooping

/-- C3: batch failure is NOT contained at batch level.  (1) When all three
attempts time out, the loop exits with `data` null and the subsequent
`for (const user of data?.response?.players)` throws an uncaught
`TypeError`, aborting the run instead of proceeding to the remaining
batches.  (2) A non-timeout, non-429 failure never increments `numAttempts`,
so however many such failures occur the attempt loop is still running — the
batch is retried forever, never abandoned.  (3) A 429 does abort the run
via rethrow, and (4) a timeout followed by a success is retried and
processed, as specified. -/
theorem updateSteamUserInfo_batch_failure (players : List Nat) :
    processBatch [SteamApiOutcome.timeout, SteamApiOutcome.timeout, SteamApiOutcome.timeout] =
      BatchOutcome.typeErrorCrash
    ∧ (∀ n : Nat, processBatch (List.replicate n (SteamApiOutcome.httpError (some 500))) =
        BatchOutcome.stillLooping)
    ∧ processBatch [SteamApiOutcome.httpError (some 429)] = BatchOutcome.rateLimitAbort
    ∧ processBatch [SteamApiOutcome.timeout, SteamApiOutcome.success players] =
        BatchOutcome.processed players := by
  refine ⟨by decide, ?_, by decide, rfl⟩
  have step : ∀ l, attemptLoop (SteamApiOutcome.httpError (some 500) :: l) 0 none =
      attemptLoop l 0 none := fun l => rfl
  have pstep : ∀ l, processBatch (SteamApiOutcome.httpError (some 500) :: l) =
      processBatch l := by
    intro l
    unfold processBatch
    rw [step l]
  intro n
  induction n with
  | zero => rfl
  | succ k ih =>
      rw [List.replicate_succ, pstep, ih]

/-! ## Timeout combinator (`withTimeout`) and its call sites (C7)

`withTimeout(promise)` races the argument against a 300s timer that rejects
with an error whose message is `timeout`.  A promise is modelled by when it
settles (`none` = never) and its outcome.  Both call sites in
`updateSteamUserInfo` are written `await withTimeout(await op)`: the operand
is awaited BEFORE `withTimeout` is applied, so the combinator receives an
already-settled value. -/

def UPDATE_STEAM_USER_INFO_BATCH_TIMEOUT : Nat := 300000

/-- A promise: when it settles (in milliseconds from when it is awaited;
`none` = never) and, if it settles, with what outcome (errors carry their
message). -/
structure Prom (α : Type) where
  settleTime : Option Nat
  result : Except String α

/-- An already-settled value wrapped as a promise (what `Promise.race`
receives for a non-promise argument). -/
def Prom.settled {α : Type} (v : α) : Prom α :=
  { settleTime := some 0, result := Except.ok v }

/-- `withTimeout(p)`: `Promise.race([p, timer])` where the timer rejects
with the `timeout` error after the 300s limit — the race settles with `p`'s
outcome when `p` settles first, and with the timeout rejection otherwise;
the underlying operation is never cancelled, only abandoned. -/
def withTimeout {α : Type} (p : Prom α) : Prom α :=
  match p.settleTime with
  | some t =>
      if t < UPDATE_STEAM_USER_INFO_BATCH_TIMEOUT then p
      else { settleTime := some UPDATE_STEAM_USER_INFO_BATCH_TIMEOUT,
             result := Except.error "timeout" }
  | none =>
      { settleTime := some UPDATE_STEAM_USER_INFO_BATCH_TIMEOUT,
        result := Except.error "timeout" }

/-- `await p` then continue: the caller waits for `p` to settle; an error
propagates; otherwise the continuation's own settling time adds on. -/
def awaitBind {α β : Type} (p : Prom α) (k : α → Prom β) : Prom β :=
  match p.settleTime with
  | none => { settleTime := none, result := Except.error "never settles" }
  | some t =>
      match p.result with
      | Except.error e => { settleTime := some t, result := Except.error e }
      | Except.ok v =>
          { settleTime := (k v).settleTime.map (t + ·), result := (k v).result }

/-- The call sites as written: `await withTimeout(await op)`. -/
def codeGuardedCall {α : Type} (op : Prom α) : Prom α :=
  awaitBind op fun v => withTimeout (Prom.settled v)

/-- The composition the specification describes: the operation itself runs
inside the race. -/
def specGuardedCall {α : Type} (op : Prom α) : Prom α := withTimeout op

/-- An operation that never settles. -/
def hangingOp : Prom Nat := { settleTime := none, result := Except.error "never settles" }

/-- C7: the call sites defeat the timeout combinator.  (1) As written,
`await withTimeout(await op)` settles exactly when `op` does — the 300s
bound never takes effect — so (2) for an operation that never settles the
caller waits indefinitely and never observes a timeout failure, although
(3) the combinator itself, applied to the un-awaited operation as the
specification describes, would settle at the 300s limit with the
distinguishable `timeout` rejection, and (4) would do so for every
operation slower than the limit. -/
theorem withTimeout_call_sites_defeated :
    (∀ op : Prom Nat, (codeGuardedCall op).settleTime = op.settleTime)
    ∧ (codeGuardedCall hangingOp).settleTime = none
    ∧ specGuardedCall hangingOp =
        { settleTime := some UPDATE_STEAM_USER_INFO_BATCH_TIMEOUT,
          result := Except.error "timeout" }
    ∧ (∀ (t : Nat) (v : Nat), UPDATE_STEAM_USER_INFO_BATCH_TIMEOUT ≤ t →
        specGuardedCall { settleTime := some t, result := Except.ok v } =
          { settleTime := some UPDATE_STEAM_USER_INFO_BATCH_TIMEOUT,
            result := Except.error "timeout" }) := by
  refine ⟨?_, rfl, rfl, ?_⟩
  · intro op
    obtain ⟨st, res⟩ := op
    cases st with
    | none => rfl
    | some t =>
        cases res with
        | error e => rfl
        | ok v => rfl
  · intro t v ht
    have h : ¬ t < UPDATE_STEAM_USER_INFO_BATCH_TIMEOUT := by omega
    simp [specGuardedCall, withTimeout, h]
